import Mathlib

/-!
# Verification of the Electrum Lightning peer core (`lib/lnbase.py`)

This development gives a shallow embedding of the data model and
operations of the Lightning peer implementation in `lib/lnbase.py`:
the data-driven wire-message codec (`handlesingle`, `calcexp`,
`make_handler`, `decode_msg`, `gen_msg`), the transport nonce counters
and key rotation (`Peer.sn`, `Peer.rn`), the channel-establishment and
reestablishment flows, the `update_fail_htlc` handler, the
`node_announcement` address parser, and the keep-alive ping logic
(`Peer.ping_if_required`).

Machine integers are modelled as `Nat`/`Int` (Python integers are
unbounded); byte strings are `List Nat`; fallible code returns
`Except`.  The declarative wire schema (`lib/lightning.json`) is not
part of the source tree, so the layouts of the two messages needed
here (`init`, `channel_reestablish`) are modelled from the
specification's codec scenarios.
-/

deriving instance DecidableEq for Except

namespace LNBase

/-- Big-endian interpretation of a byte string, Python `int.from_bytes(x, 'big')`. -/
def fromBytesBE (bs : List Nat) : Nat :=
  bs.foldl (fun a b => 256 * a + b) 0

/-- Python `n.to_bytes(len, 'big')`: the `len`-byte big-endian encoding of `n`
(the caller is responsible for `n < 256 ^ len`, as Python raises otherwise). -/
def toBytesBE : Nat → Nat → List Nat
  | 0, _ => []
  | len + 1, n => toBytesBE len (n / 256) ++ [n % 256]

/-- Python slice `data[a:b]` with Python's index-clamping semantics
(negative indices count from the end, out-of-range indices clamp). -/
def pythonSlice (data : List Nat) (a b : Int) : List Nat :=
  let n : Int := data.length
  let norm : Int → Nat := fun i => (if i < 0 then max (n + i) 0 else min i n).toNat
  (data.take (norm b)).drop (norm a)

/-- Is `c` an ASCII whitespace byte (as stripped by Python `int()`)? -/
def isPyWs (c : Nat) : Bool :=
  c = 32 || c = 9 || c = 10 || c = 13 || c = 11 || c = 12

/-- Is `c` an ASCII decimal digit byte? -/
def isPyDigit (c : Nat) : Bool :=
  48 ≤ c && c ≤ 57

/-- Parse the digit body of a Python integer literal: digits with single
underscores allowed between digits.  Returns the accumulated value. -/
def pyDigits : List Nat → Nat → Option Nat
  | [], acc => some acc
  | c :: rest, acc =>
    if isPyDigit c then pyDigits rest (10 * acc + (c - 48))
    else if c = 95 then
      match rest with
      | c2 :: rest2 =>
        if isPyDigit c2 then pyDigits rest2 (10 * acc + (c2 - 48)) else none
      | [] => none
    else none

/-- Python `int(bs)` on a byte string: optional surrounding ASCII
whitespace, an optional sign, then decimal digits (underscore
separators allowed).  `none` models the `ValueError`. -/
def pyIntOfBytes (bs : List Nat) : Option Int :=
  let bs := (bs.dropWhile isPyWs).reverse.dropWhile isPyWs |>.reverse
  match bs with
  | [] => none
  | c :: rest =>
    if c = 43 then
      match rest with
      | d :: rest2 => if isPyDigit d then (pyDigits rest2 (d - 48)).map (Int.ofNat) else none
      | [] => none
    else if c = 45 then
      match rest with
      | d :: rest2 => if isPyDigit d then (pyDigits rest2 (d - 48)).map (fun n => -(n : Int)) else none
      | [] => none
    else if isPyDigit c then (pyDigits rest (c - 48)).map (Int.ofNat)
    else none

/-- A value bound in a message field map: a Python `int` or a byte string. -/
inductive Val where
  | vint (i : Int)
  | vbytes (bs : List Nat)
deriving DecidableEq, Repr

/-- Numeric coercion applied by `handlesingle`: `int(x)` if that
succeeds (Python `int()` parses ASCII-decimal byte strings), otherwise
`int.from_bytes(x, byteorder='big')`. -/
def valToInt : Val → Int
  | .vint i => i
  | .vbytes bs =>
    match pyIntOfBytes bs with
    | some i => i
    | none => (fromBytesBE bs : Int)

/-- One term of the length/position expression language: an integer
literal or a reference to a previously bound field name. -/
inductive Atom where
  | lit (n : Nat)
  | var (s : String)
deriving DecidableEq, Repr

/-- An expression of `calcexp`'s language: a sum of atoms or a product
of atoms (the source asserts the two never mix). -/
inductive Expr where
  | esum (ts : List Atom)
  | eprod (ts : List Atom)
deriving DecidableEq, Repr

/-- Source `handlesingle(x, ma)`: an integer literal evaluates to itself, a
variable is looked up (`KeyError`, modelled as `Except.error`, when
absent) and coerced to an integer. -/
def handlesingle (look : String → Option Val) : Atom → Except Unit Int
  | .lit n => .ok n
  | .var s =>
    match look s with
    | none => .error ()
    | some v => .ok (valToInt v)

/-- Source `calcexp(exp, ma)`: evaluate a sum or product of atoms over the
bindings provided by `look`. -/
def calcexp (e : Expr) (look : String → Option Val) : Except Unit Int :=
  match e with
  | .esum ts => (ts.mapM (handlesingle look)).map (·.sum)
  | .eprod ts => (ts.mapM (handlesingle look)).map (·.prod)

/-- One field of a message layout: name, `position` and `length`
expressions, and whether the schema marks it with `feature`. -/
structure FieldSpec where
  name : String
  position : Expr
  length : Expr
  feature : Bool
deriving DecidableEq, Repr

/-- One message of the wire schema: name, 16-bit type code, ordered payload. -/
structure MsgSpec where
  name : String
  type : Nat
  payload : List FieldSpec
deriving DecidableEq, Repr

/-- Dictionary update `ma[k] = v` on an association list (later
bindings shadow earlier ones). -/
def aset {α : Type} (m : List (String × α)) (k : String) (v : α) : List (String × α) :=
  (k, v) :: m

/-- Dictionary lookup on an association list (most recent binding wins). -/
def aget {α : Type} (m : List (String × α)) (k : String) : Option α :=
  match m with
  | [] => none
  | (k', v) :: t => if k' = k then some v else aget t k

/-- The free variables of a `calcexp` expression. -/
def exprVars (e : Expr) : List String :=
  let ts := match e with | .esum ts => ts | .eprod ts => ts
  ts.filterMap (fun a => match a with | .lit _ => none | .var s => some s)

/-- The field walk of the decoder produced by `make_handler`: checks
each field's `position` against the running offset, extracts `length`
bytes, and finally requires the whole input to be consumed.  A
`feature` field is skipped when the input is already exhausted. -/
def runFields (data : List Nat) : List FieldSpec → List (String × Val) → Int → Except Unit (List (String × Val))
  | [], ma, pos => if pos = (data.length : Int) then .ok ma else .error ()
  | f :: rest, ma, pos =>
    if f.feature ∧ pos = (data.length : Int) then runFields data rest ma pos
    else
      match calcexp f.position (aget ma) with
      | .error _ => .error ()
      | .ok p =>
        if pos = p then
          match calcexp f.length (aget ma) with
          | .error _ => .error ()
          | .ok len =>
            runFields data rest (aset ma f.name (.vbytes (pythonSlice data pos (pos + len)))) (pos + len)
        else .error ()

/-- Source `make_handler(k, v)` applied to payload bytes: returns the message
name and the parsed field map. -/
def make_handler (spec : MsgSpec) (data : List Nat) : Except Unit (String × List (String × Val)) :=
  (runFields data spec.payload [] 0).map (fun ma => (spec.name, ma))

/-- Source `decode_msg(data)`: read the first two bytes as the type code, look
up the handler, run it on the rest. -/
def decode_msg (schema : List MsgSpec) (data : List Nat) : Except Unit (String × List (String × Val)) :=
  match data with
  | t1 :: t2 :: rest =>
    match schema.find? (fun sp => toBytesBE 2 sp.type = [t1, t2]) with
    | some sp => make_handler sp rest
    | none => .error ()
  | _ => .error ()

/-- The parameter-conversion block of `gen_msg`: a byte string is used
as is; an integer is converted with `to_bytes(leng, 'big')`, which
fails outside `[0, 256^leng)` or for a negative length. -/
def encParamBytes (param : Val) (leng : Int) : Except Unit (List Nat) :=
  match param with
  | .vbytes bs => .ok bs
  | .vint i =>
    if 0 ≤ leng ∧ 0 ≤ i ∧ i < (256 : Int) ^ leng.toNat then
      .ok (toBytesBE leng.toNat i.toNat)
    else .error ()

/-- The per-field step of `gen_msg`: compute the field's length first
over `lengths` alone (an error here propagates, as in the source),
then over `lengths` updated with the caller's `kwargs` (falling back to
the first answer on `KeyError`); fetch the parameter (defaulting to the
integer 0), convert an integer parameter with `to_bytes`, and check the
byte length. -/
def encStep (kwargs : List (String × Val)) (lengths : List (String × Int)) (f : FieldSpec) : Except Unit (List Nat) :=
  match calcexp f.length (fun s => (aget lengths s).map Val.vint) with
  | .error e => .error e
  | .ok leng0 =>
    let leng : Int := match calcexp f.length (fun s => (aget kwargs s).orElse (fun _ => (aget lengths s).map Val.vint)) with
      | .ok v => v
      | .error _ => leng0
    let param := (aget kwargs f.name).getD (.vint 0)
    match encParamBytes param leng with
    | .error e => .error e
    | .ok pbytes => if (pbytes.length : Int) = leng then .ok pbytes else .error ()

/-- The field loop of `gen_msg`, with the byte accumulation factored
into a per-field list of `(name, encoded bytes)` entries: `feature`
fields are skipped, every other field is encoded by `encStep` and its
byte length recorded in `lengths`. -/
def encodeCore (kwargs : List (String × Val)) : List FieldSpec → List (String × Int) → Except Unit (List (String × List Nat))
  | [], _ => .ok []
  | f :: rest, lengths =>
    if f.feature then encodeCore kwargs rest lengths
    else
      match encStep kwargs lengths f with
      | .error e => .error e
      | .ok pbytes =>
        match encodeCore kwargs rest (aset lengths f.name (pbytes.length : Int)) with
        | .error e => .error e
        | .ok es => .ok ((f.name, pbytes) :: es)

/-- Source `gen_msg(msg_type, **kwargs)`: the 2-byte type code followed by the
concatenation of the encoded non-`feature` fields. -/
def gen_msg (spec : MsgSpec) (kwargs : List (String × Val)) : Except Unit (List Nat) :=
  if spec.type < 65536 then
    (encodeCore kwargs spec.payload []).map
      (fun es => toBytesBE 2 spec.type ++ (es.map (·.2)).flatten)
  else .error ()

/-- Modelled from the spec: `lib/lightning.json` is not in the source
tree.  The layout of the `init` message (type 16) follows the
specification's codec scenario: 2-byte `gflen`, `gflen` bytes of
`globalfeatures`, 2-byte `lflen`, `lflen` bytes of `localfeatures`;
none of the four fields carries the `feature` marker, since the spec's
scenario shows `localfeatures` being emitted by the encoder. -/
def initSpec : MsgSpec :=
  { name := "init", type := 16,
    payload := [
      { name := "gflen", position := .esum [.lit 0], length := .esum [.lit 2], feature := false },
      { name := "globalfeatures", position := .esum [.lit 2], length := .esum [.var "gflen"], feature := false },
      { name := "lflen", position := .esum [.lit 2, .var "gflen"], length := .esum [.lit 2], feature := false },
      { name := "localfeatures", position := .esum [.lit 4, .var "gflen"], length := .esum [.var "lflen"], feature := false } ] }

/-- Modelled from the spec: `lib/lightning.json` is not in the source
tree.  The layout of `channel_reestablish` (type 136): 32-byte
`channel_id`, 8-byte `next_local_commitment_number`, 8-byte
`next_remote_revocation_number`, then the two optional
`option_data_loss_protect` trailers carrying the `feature` marker
(32-byte `your_last_per_commitment_secret`, 33-byte
`my_current_per_commitment_point`); the spec describes `feature`
fields as optional trailers and the reestablish handler reads
`my_current_per_commitment_point`. -/
def channelReestablishSpec : MsgSpec :=
  { name := "channel_reestablish", type := 136,
    payload := [
      { name := "channel_id", position := .esum [.lit 0], length := .esum [.lit 32], feature := false },
      { name := "next_local_commitment_number", position := .esum [.lit 32], length := .esum [.lit 8], feature := false },
      { name := "next_remote_revocation_number", position := .esum [.lit 40], length := .esum [.lit 8], feature := false },
      { name := "your_last_per_commitment_secret", position := .esum [.lit 48], length := .esum [.lit 32], feature := true },
      { name := "my_current_per_commitment_point", position := .esum [.lit 80], length := .esum [.lit 33], feature := true } ] }

/-- The modelled wire schema: the messages of `lib/lightning.json` used
in this development. -/
def SCHEMA : List MsgSpec := [initSpec, channelReestablishSpec]

/-! ## Transport nonce counters and key rotation (`Peer.sn`, `Peer.rn`)

`get_bolt8_hkdf` is HMAC-SHA256 extract-and-expand; the rotation logic
is parametric in it, so it is passed as an argument `hkdf` returning
the two 32-byte halves. -/

/-- The transport-side state of a `Peer` after the handshake: the two
nonce counters `_sn`, `_rn`, the sending/receiving keys `sk`, `rk` and
the per-direction chaining keys `s_ck`, `r_ck`. -/
structure TransportState where
  sn : Nat
  rn : Nat
  sk : List Nat
  rk : List Nat
  s_ck : List Nat
  r_ck : List Nat
deriving DecidableEq, Repr

/-- Source `Peer.sn`: return the current send counter, increment it, and on
reaching 1000 rotate `(s_ck, sk)` through `hkdf` and reset to 0. -/
def snStep (hkdf : List Nat → List Nat → List Nat × List Nat) (st : TransportState) : Nat × TransportState :=
  let o := st.sn
  let sn1 := st.sn + 1
  if sn1 = 1000 then
    (o, { st with sn := 0, s_ck := (hkdf st.s_ck st.sk).1, sk := (hkdf st.s_ck st.sk).2 })
  else
    (o, { st with sn := sn1 })

/-- Source `Peer.rn`: return the current receive counter together with the
receive key, increment the counter, and on reaching 1000 rotate
`(r_ck, rk)` through `hkdf` and reset to 0. -/
def rnStep (hkdf : List Nat → List Nat → List Nat × List Nat) (st : TransportState) : (Nat × List Nat) × TransportState :=
  let o := (st.rn, st.rk)
  let rn1 := st.rn + 1
  if rn1 = 1000 then
    (o, { st with rn := 0, r_ck := (hkdf st.r_ck st.rk).1, rk := (hkdf st.r_ck st.rk).2 })
  else
    (o, { st with rn := rn1 })

/-- The state after `k` consecutive uses of `Peer.sn`. -/
def snIterate (hkdf : List Nat → List Nat → List Nat × List Nat) : Nat → TransportState → TransportState
  | 0, st => st
  | k + 1, st => snIterate hkdf k (snStep hkdf st).2

/-- The state after `k` consecutive uses of `Peer.rn`. -/
def rnIterate (hkdf : List Nat → List Nat → List Nat × List Nat) : Nat → TransportState → TransportState
  | 0, st => st
  | k + 1, st => rnIterate hkdf k (rnStep hkdf st).2

/-! ## Channel establishment (`Peer.channel_establishment_flow`) -/

/-- Modelled from the construction sites in `lnbase.py` (the class
itself lives in `lnutil`, which is not in the source tree): basepoints
are modelled by their public keys. -/
structure ChannelConfig where
  payment_basepoint : List Nat
  multisig_key : List Nat
  htlc_basepoint : List Nat
  delayed_basepoint : List Nat
  revocation_basepoint : List Nat
  to_self_delay : Nat
  dust_limit_sat : Nat
  max_htlc_value_in_flight_msat : Nat
  max_accepted_htlcs : Nat
deriving DecidableEq, Repr

/-- Modelled from the construction site in `lnbase.py` (declared in
`lnutil`, not in the source tree); the `revocation_store` collaborator
is omitted. -/
structure RemoteState where
  ctn : Int
  next_per_commitment_point : List Nat
  current_per_commitment_point : Option (List Nat)
  amount_msat : Int
  next_htlc_id : Nat
  feerate : Nat
deriving DecidableEq, Repr

/-- Modelled from the construction site in `lnbase.py` (declared in
`lnutil`, not in the source tree). -/
structure LocalState where
  ctn : Int
  per_commitment_secret_seed : List Nat
  amount_msat : Int
  next_htlc_id : Nat
  funding_locked_received : Bool
  was_announced : Bool
  current_commitment_signature : Option (List Nat)
  feerate : Nat
deriving DecidableEq, Repr

/-- The fields of the inbound `accept_channel` payload read by the
flow; each is the raw byte string produced by the decoder. -/
structure AcceptChannelPayload where
  first_per_commitment_point : List Nat
  payment_basepoint : List Nat
  funding_pubkey : List Nat
  htlc_basepoint : List Nat
  delayed_payment_basepoint : List Nat
  revocation_basepoint : List Nat
  to_self_delay : List Nat
  dust_limit_satoshis : List Nat
  max_htlc_value_in_flight_msat : List Nat
  max_accepted_htlcs : List Nat
  minimum_depth : List Nat
  htlc_minimum_msat : List Nat
deriving DecidableEq, Repr

/-- The channel record built by the establishment flow (the dict passed
to `HTLCStateMachine` together with the identifying fields). -/
structure ChannelRecord where
  node_id : List Nat
  channel_id : List Nat
  short_channel_id : Option (List Nat)
  funding_txid_rev : List Nat
  funding_index : Nat
  local_config : ChannelConfig
  remote_config : ChannelConfig
  remote_state : RemoteState
  local_state : LocalState
  capacity : Int
  is_initiator : Bool
  funding_txn_minimum_depth : Nat
deriving DecidableEq, Repr

/-- Source `channel_id_from_funding_tx`: the reversed funding txid interpreted
as a big-endian integer, XORed with the funding index, re-encoded as 32
bytes big-endian. -/
def channel_id_from_funding_tx (funding_txid_rev : List Nat) (funding_index : Nat) : List Nat :=
  toBytesBE 32 (fromBytesBE funding_txid_rev ^^^ funding_index)

/-- The `accept_channel` stage of the establishment flow: build the
remote `ChannelConfig` and `funding_txn_minimum_depth` from the
payload and run the three sanity assertions (`dust_limit_satoshis <
600`, `htlc_minimum_msat < 600 * 1000`,
`max_htlc_value_in_flight_msat >= 198 * 1000 * 1000`). -/
def accept_channel_stage (payload : AcceptChannelPayload) : Except String (ChannelConfig × Nat) :=
  let remote_config : ChannelConfig := {
    payment_basepoint := payload.payment_basepoint
    multisig_key := payload.funding_pubkey
    htlc_basepoint := payload.htlc_basepoint
    delayed_basepoint := payload.delayed_payment_basepoint
    revocation_basepoint := payload.revocation_basepoint
    to_self_delay := fromBytesBE payload.to_self_delay
    dust_limit_sat := fromBytesBE payload.dust_limit_satoshis
    max_htlc_value_in_flight_msat := fromBytesBE payload.max_htlc_value_in_flight_msat
    max_accepted_htlcs := fromBytesBE payload.max_accepted_htlcs }
  let funding_txn_minimum_depth := fromBytesBE payload.minimum_depth
  if remote_config.dust_limit_sat < 600 then
    if fromBytesBE payload.htlc_minimum_msat < 600 * 1000 then
      if remote_config.max_htlc_value_in_flight_msat ≥ 198 * 1000 * 1000 then
        .ok (remote_config, funding_txn_minimum_depth)
      else .error "max_htlc_value_in_flight_msat too small"
    else .error "htlc_minimum_msat too large"
  else .error "dust_limit_satoshis too large"

/-- Source `Peer.channel_establishment_flow` after `open_channel` has been
sent: validate the `accept_channel` payload, obtain the funding
transaction from the wallet (`mktx`, an external collaborator, queried
only after validation), construct the channel record with `ctn = -1`
on both sides, and on `funding_signed` with signature
`funding_signed_sig` advance both `ctn` to 0 and store the signature
on the local state.  The external `HTLCStateMachine` calls
(`sign_next_commitment`, `receive_new_commitment`) and the broadcast
do not touch the recorded fields. -/
def channel_establishment_flow (node_id : List Nat) (local_config : ChannelConfig)
    (per_commitment_secret_seed : List Nat) (funding_sat push_msat : Int)
    (payload : AcceptChannelPayload) (mktx : Unit → List Nat × Nat)
    (funding_signed_sig : List Nat) : Except String ChannelRecord := do
  let (remote_config, funding_txn_minimum_depth) ← accept_channel_stage payload
  let remote_per_commitment_point := payload.first_per_commitment_point
  let (funding_txid_rev, funding_index) := mktx ()
  let local_amount := funding_sat * 1000 - push_msat
  let remote_amount := push_msat
  let channel_id := channel_id_from_funding_tx funding_txid_rev funding_index
  let local_feerate := 20000
  let chan : ChannelRecord := {
    node_id := node_id
    channel_id := channel_id
    short_channel_id := none
    funding_txid_rev := funding_txid_rev
    funding_index := funding_index
    local_config := local_config
    remote_config := remote_config
    remote_state := {
      ctn := -1
      next_per_commitment_point := remote_per_commitment_point
      current_per_commitment_point := none
      amount_msat := remote_amount
      next_htlc_id := 0
      feerate := local_feerate }
    local_state := {
      ctn := -1
      per_commitment_secret_seed := per_commitment_secret_seed
      amount_msat := local_amount
      next_htlc_id := 0
      funding_locked_received := false
      was_announced := false
      current_commitment_signature := none
      feerate := local_feerate }
    capacity := funding_sat
    is_initiator := true
    funding_txn_minimum_depth := funding_txn_minimum_depth }
  let m := { chan with remote_state := { chan.remote_state with ctn := 0 } }
  let m := { m with local_state := { m.local_state with ctn := 0, current_commitment_signature := some funding_signed_sig } }
  pure m

/-! ## Channel reestablishment (`Peer.reestablish_channel`, `Peer.on_channel_reestablish`) -/

/-- The field values the reestablish flow passes to
`gen_msg("channel_reestablish", ...)`. -/
structure ReestablishMsgFields where
  channel_id : List Nat
  next_local_commitment_number : Int
  next_remote_revocation_number : Int
deriving DecidableEq, Repr

/-- The outbound `channel_reestablish` built by
`Peer.reestablish_channel`. -/
def reestablish_channel_msg (chan : ChannelRecord) : ReestablishMsgFields :=
  { channel_id := chan.channel_id
    next_local_commitment_number := chan.local_state.ctn + 1
    next_remote_revocation_number := chan.remote_state.ctn }

/-- The fields of an inbound `channel_reestablish` payload read by the
handler, as raw byte strings. -/
structure ReestablishPayload where
  channel_id : List Nat
  next_local_commitment_number : List Nat
  next_remote_revocation_number : List Nat
  my_current_per_commitment_point : List Nat
deriving DecidableEq, Repr

/-- What `Peer.on_channel_reestablish` did on a successful return. -/
inductive ReestablishOutcome where
  | unknownChannel
  | resolved
deriving DecidableEq, Repr

/-- Source `Peer.on_channel_reestablish`: an unknown channel is logged and
ignored; for a known channel the handler raises unless their
`next_local_commitment_number` equals `remote.ctn + 1`, their
`next_remote_revocation_number` equals `local.ctn`, and their
`my_current_per_commitment_point` equals the locally stored remote
point (`current_per_commitment_point` when set, otherwise
`next_per_commitment_point`); on success it resolves the
reestablishment future. -/
def on_channel_reestablish (chan? : Option ChannelRecord) (payload : ReestablishPayload) : Except String ReestablishOutcome :=
  match chan? with
  | none => .ok .unknownChannel
  | some chan =>
    let remote_ctn : Int := (fromBytesBE payload.next_local_commitment_number : Nat)
    if remote_ctn ≠ chan.remote_state.ctn + 1 then
      .error "expected remote ctn"
    else
      let local_ctn : Int := (fromBytesBE payload.next_remote_revocation_number : Nat)
      if local_ctn ≠ chan.local_state.ctn then
        .error "expected local ctn"
      else
        let their := payload.my_current_per_commitment_point
        let our := chan.remote_state.current_per_commitment_point.getD chan.remote_state.next_per_commitment_point
        if our ≠ their then
          .error "Remote PCP mismatch"
        else
          .ok .resolved

/-! ## HTLC failure handling (`Peer.on_update_fail_htlc`) -/

/-- One edge of a recorded route (`RouteEdge` from the path finder). -/
structure RouteEdge where
  node_id : List Nat
  short_channel_id : List Nat
deriving DecidableEq, Repr

/-- An ASCII single-quote character, written numerically. -/
def sq : String := String.singleton (Char.ofNat 39)

/-- Python `repr` of a list of strings, as produced by
`"{}".format(codes)`. -/
def py_list_repr (xs : List String) : String :=
  "[" ++ String.intercalate ", " (xs.map (fun s => sq ++ s ++ sq)) ++ "]"

/-- The category list derived from an onion failure code, in the order
the handler appends them: `BADONION = 0x8000`, `PERM = 0x4000`,
`NODE = 0x2000`, `UPDATE = 0x1000`. -/
def failure_codes (code : Nat) : List String :=
  (if code &&& 0x8000 ≠ 0 then ["BADONION"] else [])
    ++ (if code &&& 0x4000 ≠ 0 then ["PERM"] else [])
    ++ (if code &&& 0x2000 ≠ 0 then ["NODE"] else [])
    ++ (if code &&& 0x1000 ≠ 0 then ["UPDATE"] else [])

/-- The observable outcome of `Peer.on_update_fail_htlc`: the short
channel id added to the path-finder blacklist and the string enqueued
on the `update_fail_htlc` queue. -/
structure FailHtlcOutcome where
  blacklisted : List Nat
  enqueued : String
deriving DecidableEq, Repr

/-- Source `Peer.on_update_fail_htlc` for the recorded route of
`(channel_id, htlc_id)`, given the already-decoded onion failure code
and sender index: blacklist `route[sender_idx + 1].short_channel_id`
and enqueue the failure string.  When the sender is the destination,
the `IndexError` is caught but the subsequent blacklist line then
raises a `NameError` on the unbound `short_chan_id`. -/
def on_update_fail_htlc (route : List RouteEdge) (code : Nat) (sender_idx : Nat) : Except String FailHtlcOutcome :=
  let codes := failure_codes code
  match route.get? (sender_idx + 1) with
  | none => .error "NameError: short_chan_id"
  | some edge =>
    .ok { blacklisted := edge.short_channel_id
          enqueued := "HTLC failure with code " ++ toString code ++ " (categories " ++ py_list_repr codes ++ ")" }

/-! ## `node_announcement` address parsing (`Peer.on_node_announcement`) -/

/-- An address recovered by the parser: IPv4 as a dotted decimal
string, IPv6 as the colon-joined hexlification of four 2-byte reads. -/
inductive LnAddress where
  | ipv4 (addr : String) (port : Nat)
  | ipv6 (addr : String) (port : Nat)
deriving DecidableEq, Repr

/-- Lowercase hex digit for a value below 16. -/
def hexDigit (n : Nat) : Char :=
  if n < 10 then Char.ofNat (48 + n) else Char.ofNat (87 + n)

/-- Python `binascii.hexlify` of a byte string, as a string. -/
def hexlify (bs : List Nat) : String :=
  String.mk (bs.flatMap (fun b => [hexDigit (b / 16 % 16), hexDigit (b % 16)]))

/-- The address loop of `Peer.on_node_announcement`, with an explicit
fuel argument for structural recursion: repeatedly read the type byte;
type 1 consumes 4 bytes of IPv4 plus 2 of port, type 2 consumes four
2-byte hexlified groups plus 2 bytes of port, and every other type
byte is skipped (only the type byte itself is consumed) and the loop
continues. -/
def read_addresses_loop : Nat → List Nat → List LnAddress
  | _, [] => []
  | 0, _ :: _ => []
  | fuel + 1, atype :: rest =>
    if atype = 1 then
      let ipv4_addr := String.intercalate "." ((rest.take 4).map (fun x => toString x))
      let port := fromBytesBE ((rest.drop 4).take 2)
      .ipv4 ipv4_addr port :: read_addresses_loop fuel (rest.drop 6)
    else if atype = 2 then
      let groups := [rest.take 2, (rest.drop 2).take 2, (rest.drop 4).take 2, (rest.drop 6).take 2]
      let ipv6_addr := String.intercalate ":" (groups.map hexlify)
      let port := fromBytesBE ((rest.drop 8).take 2)
      .ipv6 ipv6_addr port :: read_addresses_loop fuel (rest.drop 10)
    else
      read_addresses_loop fuel rest

/-- The `while self.s:` loop of `Peer.on_node_announcement`: every
iteration consumes at least the type byte, so the buffer length bounds
the number of iterations and is supplied as fuel. -/
def read_addresses (bs : List Nat) : List LnAddress :=
  read_addresses_loop bs.length bs

/-! ## Keep-alive ping (`Peer.ping_if_required`, `Peer.main_loop`) -/

/-- The `Peer` state feeding `ping_if_required`: `ping_time`, the time
of the last emitted ping (0 from `__init__`). -/
structure ClockState where
  ping_time : Int
deriving DecidableEq, Repr

/-- Source `Peer.ping_if_required` at wall-clock `now`: when more than 120
seconds have passed since `ping_time`, emit
`ping{num_pong_bytes=4, byteslen=4}` and set `ping_time` to `now`. -/
def ping_if_required (now : Int) (st : ClockState) : Option (Nat × Nat) × ClockState :=
  if now - st.ping_time > 120 then
    (some (4, 4), { ping_time := now })
  else
    (none, st)

/-- The effect of `Peer.send_message` on `ping_time`: none (the source never
updates `ping_time` outside `ping_if_required` and `__init__`). -/
def send_message_clock (st : ClockState) : ClockState := st

/-- An event of the dispatch-loop trace: an outbound non-ping send, or
one loop iteration running `ping_if_required`. -/
inductive PeerEvent where
  | send
  | loop
deriving DecidableEq, Repr

/-- One timed trace step: a send leaves the state unchanged and emits
nothing; a loop iteration runs `ping_if_required` and records any
emitted ping with its timestamp and fields. -/
def clock_step (acc : ClockState × List (Int × Nat × Nat)) (e : Int × PeerEvent) : ClockState × List (Int × Nat × Nat) :=
  match e.2 with
  | .send => (send_message_clock acc.1, acc.2)
  | .loop =>
    match ping_if_required e.1 acc.1 with
    | (some p, st') => (st', acc.2 ++ [(e.1, p)])
    | (none, st') => (st', acc.2)

/-- Run the dispatch loop's ping logic over a timed trace from the
freshly initialized state (`ping_time = 0`), collecting the emitted
pings. -/
def run_clock (tr : List (Int × PeerEvent)) : ClockState × List (Int × Nat × Nat) :=
  tr.foldl clock_step ({ ping_time := 0 }, [])

/-! ## Concrete example inputs used by witnesses and counterexamples -/

/-- The `kwargs` of `gen_msg("init", gflen=0, lflen=1, localfeatures=0x08)`. -/
def initKwargs : List (String × Val) :=
  [("gflen", .vint 0), ("lflen", .vint 1), ("localfeatures", .vint 8)]

/-- A `channel_reestablish` field assignment that also supplies a value
for the `feature`-marked trailer `my_current_per_commitment_point`. -/
def crKwargs : List (String × Val) :=
  [("channel_id", .vbytes (List.replicate 32 0)),
   ("next_local_commitment_number", .vint 0),
   ("next_remote_revocation_number", .vint 0),
   ("my_current_per_commitment_point", .vbytes (List.replicate 33 2))]

/-- A three-hop recorded route. -/
def exampleRoute : List RouteEdge :=
  [{ node_id := [1], short_channel_id := [10] },
   { node_id := [2], short_channel_id := [20] },
   { node_id := [3], short_channel_id := [30] }]

/-- A local `ChannelConfig` with the constants the open flow uses. -/
def cfg0 : ChannelConfig :=
  { payment_basepoint := [1], multisig_key := [1], htlc_basepoint := [1],
    delayed_basepoint := [1], revocation_basepoint := [1],
    to_self_delay := 143, dust_limit_sat := 10,
    max_htlc_value_in_flight_msat := 18446744073709551615, max_accepted_htlcs := 5 }

/-- An `accept_channel` payload passing all three sanity checks
(dust limit 599 < 600, htlc minimum 0 < 600000, max in flight
4294967295 >= 198000000). -/
def goodAcceptPayload : AcceptChannelPayload :=
  { first_per_commitment_point := [2], payment_basepoint := [3],
    funding_pubkey := [4], htlc_basepoint := [5],
    delayed_payment_basepoint := [6], revocation_basepoint := [7],
    to_self_delay := [0, 143], dust_limit_satoshis := [2, 87],
    max_htlc_value_in_flight_msat := [255, 255, 255, 255],
    max_accepted_htlcs := [0, 5], minimum_depth := [3],
    htlc_minimum_msat := [0] }

/-- An `accept_channel` payload violating the dust-limit check
(dust limit 600 is not < 600). -/
def badAcceptPayload : AcceptChannelPayload :=
  { goodAcceptPayload with dust_limit_satoshis := [2, 88] }

/-- A wallet `mktx` collaborator returning one funding transaction. -/
def mk0 : Unit → List Nat × Nat := fun _ => ([17], 1)

/-- A wallet `mktx` collaborator returning a different funding transaction. -/
def mk1 : Unit → List Nat × Nat := fun _ => ([34], 0)

/-- A concrete HKDF stand-in for witnesses of the rotation theorem. -/
def hkdf0 : List Nat → List Nat → List Nat × List Nat :=
  fun a b => (a ++ b, b ++ a)

/-- A transport state fresh out of the handshake (both counters 0). -/
def st0 : TransportState :=
  { sn := 0, rn := 0, sk := [1], rk := [2], s_ck := [3], r_ck := [4] }

/-- A known channel for the reestablish witness: both `ctn` 0, no
`current_per_commitment_point` stored yet. -/
def chan0 : ChannelRecord :=
  { node_id := [9], channel_id := List.replicate 32 0, short_channel_id := none,
    funding_txid_rev := [17], funding_index := 1,
    local_config := cfg0, remote_config := cfg0,
    remote_state := { ctn := 0, next_per_commitment_point := [170],
                      current_per_commitment_point := none, amount_msat := 0,
                      next_htlc_id := 0, feerate := 20000 },
    local_state := { ctn := 0, per_commitment_secret_seed := [8], amount_msat := 0,
                     next_htlc_id := 0, funding_locked_received := false,
                     was_announced := false, current_commitment_signature := none,
                     feerate := 20000 },
    capacity := 1000, is_initiator := true, funding_txn_minimum_depth := 3 }

/-- A `channel_reestablish` payload matching `chan0`'s expectations. -/
def reestPayload0 : ReestablishPayload :=
  { channel_id := List.replicate 32 0,
    next_local_commitment_number := [1],
    next_remote_revocation_number := [0],
    my_current_per_commitment_point := [170] }

/-! ## Theorems -/

/-- C8: encoding `init` with `gflen=0, lflen=1, localfeatures=0x08`
produces exactly the bytes `0x0010 0000 0001 08`, and decoding
`0x0010 0000 0000` yields the message name `"init"` with a field map
in which `gflen` decodes to 0 and `lflen` decodes to 0. -/
theorem c8_init_codec_scenario :
    gen_msg initSpec initKwargs = .ok [0x00, 0x10, 0x00, 0x00, 0x00, 0x01, 0x08] ∧
    decode_msg SCHEMA [0x00, 0x10, 0x00, 0x00, 0x00, 0x00] =
      .ok ("init", [("localfeatures", .vbytes []), ("lflen", .vbytes [0, 0]),
                    ("globalfeatures", .vbytes []), ("gflen", .vbytes [0, 0])]) ∧
    (aget [("localfeatures", Val.vbytes []), ("lflen", Val.vbytes [0, 0]),
           ("globalfeatures", Val.vbytes []), ("gflen", Val.vbytes [0, 0])] "gflen").map valToInt = some 0 ∧
    (aget [("localfeatures", Val.vbytes []), ("lflen", Val.vbytes [0, 0]),
           ("globalfeatures", Val.vbytes []), ("gflen", Val.vbytes [0, 0])] "lflen").map valToInt = some 0 := by
  decide

/-- C6 (code bug): the `node_announcement` address parser does not
terminate on an unknown address-type byte — it consumes the byte and
reinterprets the following byte as a fresh type, so after the unknown
type 3 it still parses an IPv4 address; and a type-2 address consumes
only four 2-byte groups (8 bytes) of IPv6 plus 2 bytes that fall
inside the 16-byte IPv6 field, desynchronizing the rest of the
block. -/
theorem c6_address_parsing_divergence :
    read_addresses [3, 1, 1, 2, 3, 4, 0, 80] = [.ipv4 "1.2.3.4" 80] ∧
    read_addresses ([2] ++ [32, 1, 13, 184, 0, 0, 0, 0, 0, 0, 0, 0, 0, 0, 0, 1] ++ [1, 187]) =
      [.ipv6 "2001:0db8:0000:0000" 0, .ipv4 "1.187" 0] := by
  decide

/-- C5 (counterexample): for a three-hop route and failure code
`0x1007 = 4103`, the handler enqueues
`"HTLC failure with code 4103 (categories ['UPDATE'])"` — the `NODE`
bit `0x2000` is not set in `0x1007`, so the string claimed in the
specification (categories `['NODE', 'UPDATE']`) is not produced. -/
theorem c5_counterexample :
    on_update_fail_htlc exampleRoute 4103 0 =
      .ok { blacklisted := [20],
            enqueued := "HTLC failure with code 4103 (categories [" ++ sq ++ "UPDATE" ++ sq ++ "])" } ∧
    "HTLC failure with code 4103 (categories [" ++ sq ++ "UPDATE" ++ sq ++ "])" ≠
      "HTLC failure with code 4103 (categories [" ++ sq ++ "NODE" ++ sq ++ ", " ++ sq ++ "UPDATE" ++ sq ++ "])" := by
  decide

/-- C5 (amended): for every inbound `update_fail_htlc` along a recorded
route whose failure sender has a next hop, the handler derives the
category flags with `BADONION=0x8000, PERM=0x4000, NODE=0x2000,
UPDATE=0x1000`, blacklists the next hop's short channel id, and
enqueues the Python-formatted failure string; at code `0x1007` the
categories are `['UPDATE']`. -/
theorem c5_update_fail_htlc_amended (route : List RouteEdge) (code sender_idx : Nat)
    (h : sender_idx + 1 < route.length) :
    on_update_fail_htlc route code sender_idx =
      .ok { blacklisted := (route.get ⟨sender_idx + 1, h⟩).short_channel_id
            enqueued := "HTLC failure with code " ++ toString code ++ " (categories " ++
              py_list_repr ((if code &&& 0x8000 ≠ 0 then ["BADONION"] else [])
                ++ (if code &&& 0x4000 ≠ 0 then ["PERM"] else [])
                ++ (if code &&& 0x2000 ≠ 0 then ["NODE"] else [])
                ++ (if code &&& 0x1000 ≠ 0 then ["UPDATE"] else [])) ++ ")" } := by
  unfold on_update_fail_htlc failure_codes
  rw [List.get?_eq_get h]

/-- Witness for C5 (amended) at the three-hop route and code `0x1007`:
hop 2's short channel id `[20]` is blacklisted and the failure string
carries categories `['UPDATE']`. -/
theorem c5_update_fail_htlc_amended_witness :
    on_update_fail_htlc exampleRoute 4103 0 =
      .ok { blacklisted := [20],
            enqueued := "HTLC failure with code 4103 (categories [" ++ sq ++ "UPDATE" ++ sq ++ "])" } :=
  (c5_update_fail_htlc_amended exampleRoute 4103 0 (by decide)).trans (by decide)

/-- C9 (counterexample): a non-ping outbound send does not reset the
ping timer — with the last (and only) send at time 100 and a loop
iteration at time 121, a ping is emitted even though a send occurred
21 seconds (≤ 120) earlier. -/
theorem c9_counterexample :
    run_clock [(100, .send), (121, .loop)] = ({ ping_time := 121 }, [(121, 4, 4)]) ∧
    (121 : Int) - 100 ≤ 120 := by
  decide

/-- Invariant of the dispatch-loop ping logic: `ping_time` always
equals the time of the last emitted ping, or 0 if none was emitted. -/
theorem clock_step_invariant (tr : List (Int × PeerEvent)) :
    ∀ acc : ClockState × List (Int × Nat × Nat),
      acc.1.ping_time = ((acc.2.getLast?).map (·.1)).getD 0 →
      (tr.foldl clock_step acc).1.ping_time =
        (((tr.foldl clock_step acc).2.getLast?).map (·.1)).getD 0 := by
  induction tr with
  | nil => intro acc h; exact h
  | cons e tr ih =>
    intro acc h
    rw [List.foldl_cons]
    apply ih
    obtain ⟨st, ps⟩ := acc
    obtain ⟨t, ev⟩ := e
    cases ev with
    | send => exact h
    | loop =>
      simp only [clock_step, ping_if_required]
      by_cases hc : t - st.ping_time > 120
      · rw [if_pos hc]
        simp
      · rw [if_neg hc]
        exact h

/-- C9 (amended): the dispatch loop emits a ping at a loop iteration
at time `t` exactly when more than 120 seconds have elapsed since the
last emitted ping (`ping_time`, initially 0); the emitted ping carries
`num_pong_bytes=4, byteslen=4`; and a non-ping outbound send neither
emits anything nor affects the timer, so a recent send does not
suppress the ping. -/
theorem c9_ping_timer_amended (tr : List (Int × PeerEvent)) (t : Int) :
    (run_clock tr).1.ping_time = (((run_clock tr).2.getLast?).map (·.1)).getD 0 ∧
    (run_clock (tr ++ [(t, PeerEvent.loop)])).2 =
      (if t - (run_clock tr).1.ping_time > 120 then (run_clock tr).2 ++ [(t, 4, 4)]
       else (run_clock tr).2) ∧
    (run_clock (tr ++ [(t, PeerEvent.send)])).1 = (run_clock tr).1 ∧
    (run_clock (tr ++ [(t, PeerEvent.send)])).2 = (run_clock tr).2 := by
  refine ⟨clock_step_invariant tr _ (by simp), ?_, ?_, ?_⟩
  · rw [run_clock, List.foldl_append, ← run_clock]
    simp only [List.foldl_cons, List.foldl_nil, clock_step, ping_if_required]
    by_cases hc : t - (run_clock tr).1.ping_time > 120
    · rw [if_pos hc, if_pos hc]
    · rw [if_neg hc, if_neg hc]
  · rw [run_clock, List.foldl_append, ← run_clock]; rfl
  · rw [run_clock, List.foldl_append, ← run_clock]; rfl

/-- Within an epoch, `k` uses of `Peer.sn` from a counter value that
stays below 1000 only advance the counter. -/
theorem snIterate_within (hkdf : List Nat → List Nat → List Nat × List Nat) :
    ∀ (k : Nat) (st : TransportState), st.sn + k < 1000 →
      snIterate hkdf k st = { st with sn := st.sn + k } := by
  intro k
  induction k with
  | zero => intro st _; simp [snIterate]
  | succ k ih =>
    intro st h
    have hstep : (snStep hkdf st).2 = { st with sn := st.sn + 1 } := by
      simp only [snStep]
      rw [if_neg (by omega)]
    have h2 : ({ st with sn := st.sn + 1 } : TransportState).sn + k < 1000 := by
      simp only
      omega
    rw [snIterate, hstep, ih _ h2]
    have harith : st.sn + 1 + k = st.sn + (k + 1) := by omega
    simp only
    rw [harith]

/-- Within an epoch, `k` uses of `Peer.rn` from a counter value that
stays below 1000 only advance the counter. -/
theorem rnIterate_within (hkdf : List Nat → List Nat → List Nat × List Nat) :
    ∀ (k : Nat) (st : TransportState), st.rn + k < 1000 →
      rnIterate hkdf k st = { st with rn := st.rn + k } := by
  intro k
  induction k with
  | zero => intro st _; simp [rnIterate]
  | succ k ih =>
    intro st h
    have hstep : (rnStep hkdf st).2 = { st with rn := st.rn + 1 } := by
      simp only [rnStep]
      rw [if_neg (by omega)]
    have h2 : ({ st with rn := st.rn + 1 } : TransportState).rn + k < 1000 := by
      simp only
      omega
    rw [rnIterate, hstep, ih _ h2]
    have harith : st.rn + 1 + k = st.rn + (k + 1) := by omega
    simp only
    rw [harith]

/-- Unfolding one trailing step of `snIterate`. -/
theorem snIterate_succ_last (hkdf : List Nat → List Nat → List Nat × List Nat) :
    ∀ (k : Nat) (st : TransportState),
      snIterate hkdf (k + 1) st = (snStep hkdf (snIterate hkdf k st)).2 := by
  intro k
  induction k with
  | zero => intro st; rfl
  | succ k ih =>
    intro st
    rw [snIterate, ih, snIterate]

/-- Unfolding one trailing step of `rnIterate`. -/
theorem rnIterate_succ_last (hkdf : List Nat → List Nat → List Nat × List Nat) :
    ∀ (k : Nat) (st : TransportState),
      rnIterate hkdf (k + 1) st = (rnStep hkdf (rnIterate hkdf k st)).2 := by
  intro k
  induction k with
  | zero => intro st; rfl
  | succ k ih =>
    intro st
    rw [rnIterate, ih, rnIterate]

/-- C2: starting from a fresh transport state, the nonces returned by
the first 1000 uses of each direction's counter are 0, 1, …, 999
(strictly increasing within the epoch, with the receive key constant);
the 1000th use replaces that direction's key and chaining key by the
two halves of `HKDF(chain, key)` and resets the counter to 0; and each
step of one direction leaves the other direction's counter, key and
chaining key untouched. -/
theorem c2_nonce_rotation (hkdf : List Nat → List Nat → List Nat × List Nat)
    (st : TransportState) (hs : st.sn = 0) (hr : st.rn = 0) :
    (∀ k, k < 1000 → (snStep hkdf (snIterate hkdf k st)).1 = k) ∧
    snIterate hkdf 1000 st =
      { st with sn := 0, s_ck := (hkdf st.s_ck st.sk).1, sk := (hkdf st.s_ck st.sk).2 } ∧
    (∀ k, k < 1000 → (rnStep hkdf (rnIterate hkdf k st)).1 = (k, st.rk)) ∧
    rnIterate hkdf 1000 st =
      { st with rn := 0, r_ck := (hkdf st.r_ck st.rk).1, rk := (hkdf st.r_ck st.rk).2 } ∧
    (∀ s, (snStep hkdf s).2.rn = s.rn ∧ (snStep hkdf s).2.rk = s.rk ∧ (snStep hkdf s).2.r_ck = s.r_ck) ∧
    (∀ s, (rnStep hkdf s).2.sn = s.sn ∧ (rnStep hkdf s).2.sk = s.sk ∧ (rnStep hkdf s).2.s_ck = s.s_ck) := by
  refine ⟨?_, ?_, ?_, ?_, ?_, ?_⟩
  · intro k hk
    rw [snIterate_within hkdf k st (by omega)]
    simp only [snStep]
    split <;> simp [hs]
  · have h1000 : (1000 : Nat) = 999 + 1 := by omega
    rw [h1000, snIterate_succ_last, snIterate_within hkdf 999 st (by omega)]
    simp only [snStep]
    rw [if_pos (by omega)]
  · intro k hk
    rw [rnIterate_within hkdf k st (by omega)]
    simp only [rnStep]
    split <;> simp [hr]
  · have h1000 : (1000 : Nat) = 999 + 1 := by omega
    rw [h1000, rnIterate_succ_last, rnIterate_within hkdf 999 st (by omega)]
    simp only [rnStep]
    rw [if_pos (by omega)]
  · intro s
    simp only [snStep]
    split <;> simp
  · intro s
    simp only [rnStep]
    split <;> simp

/-- Witness for C2 at a concrete HKDF and fresh state: the 6th send
nonce is 5, and the 1000th receive rotates `(r_ck, rk)` to
`HKDF(r_ck, rk)` with the counter back at 0. -/
theorem c2_nonce_rotation_witness :
    (snStep hkdf0 (snIterate hkdf0 5 st0)).1 = 5 ∧
    rnIterate hkdf0 1000 st0 =
      { st0 with rn := 0, r_ck := (hkdf0 st0.r_ck st0.rk).1, rk := (hkdf0 st0.r_ck st0.rk).2 } := by
  have h := c2_nonce_rotation hkdf0 st0 rfl rfl
  exact ⟨h.1 5 (by decide), h.2.2.2.1⟩

/-- C3 (counterexample): the remote state produced by a completed
channel-establishment flow is identical for two different counterparty
commitment signatures — the remote state does not store the signature
(only the local state does), refuting "both the local state and the
remote state store the counterparty's first commitment signature". -/
theorem c3_counterexample :
    (channel_establishment_flow [9] cfg0 [8] 1000 0 goodAcceptPayload mk0 [7]).map (·.remote_state) =
      (channel_establishment_flow [9] cfg0 [8] 1000 0 goodAcceptPayload mk0 [250]).map (·.remote_state) ∧
    ([7] : List Nat) ≠ [250] ∧
    (channel_establishment_flow [9] cfg0 [8] 1000 0 goodAcceptPayload mk0 [7]).map
        (fun m => m.local_state.current_commitment_signature) = .ok (some [7]) := by
  decide

/-- C3 (amended): every run of the channel-open flow that completes the
`open_channel`/`accept_channel`/`funding_created`/`funding_signed`
exchange ends with both `ctn` equal to 0 and the counterparty's first
commitment signature stored on the local state. -/
theorem c3_establishment_final_state (node_id : List Nat) (local_config : ChannelConfig)
    (seed : List Nat) (funding_sat push_msat : Int) (payload : AcceptChannelPayload)
    (mktx : Unit → List Nat × Nat) (sig : List Nat) (m : ChannelRecord)
    (h : channel_establishment_flow node_id local_config seed funding_sat push_msat payload mktx sig = .ok m) :
    m.local_state.ctn = 0 ∧ m.remote_state.ctn = 0 ∧
      m.local_state.current_commitment_signature = some sig := by
  unfold channel_establishment_flow at h
  cases hstage : accept_channel_stage payload with
  | error e => rw [hstage] at h; exact absurd h (by simp [Bind.bind, Except.bind])
  | ok rc =>
    rw [hstage] at h
    simp only [Bind.bind, Except.bind, pure, Except.pure] at h
    cases h
    exact ⟨rfl, rfl, rfl⟩

/-- Witness for C3 (amended): a concrete completed flow ends with both
`ctn` 0 and the signature `[7]` stored locally. -/
theorem c3_establishment_final_state_witness :
    ∃ m, channel_establishment_flow [9] cfg0 [8] 1000 0 goodAcceptPayload mk0 [7] = .ok m ∧
      m.local_state.ctn = 0 ∧ m.remote_state.ctn = 0 ∧
      m.local_state.current_commitment_signature = some [7] :=
  ⟨_, rfl, c3_establishment_final_state [9] cfg0 [8] 1000 0 goodAcceptPayload mk0 [7] _ rfl⟩

/-- C7: after `accept_channel`, the flow proceeds exactly when the
remote's `dust_limit_satoshis` is below 600, its `htlc_minimum_msat`
is below 600000 and its `max_htlc_value_in_flight_msat` is at least
198000000; on any violation the flow aborts with a result that is
independent of the wallet's funding-transaction collaborator, i.e.
before a funding transaction is built. -/
theorem c7_accept_channel_checks (payload : AcceptChannelPayload) :
    ((accept_channel_stage payload).isOk = true ↔
      (fromBytesBE payload.dust_limit_satoshis < 600 ∧
       fromBytesBE payload.htlc_minimum_msat < 600 * 1000 ∧
       fromBytesBE payload.max_htlc_value_in_flight_msat ≥ 198 * 1000 * 1000)) ∧
    (∀ (node_id : List Nat) (local_config : ChannelConfig) (seed : List Nat)
       (funding_sat push_msat : Int) (mktx1 mktx2 : Unit → List Nat × Nat) (sig : List Nat),
      (accept_channel_stage payload).isOk = false →
      channel_establishment_flow node_id local_config seed funding_sat push_msat payload mktx1 sig =
        channel_establishment_flow node_id local_config seed funding_sat push_msat payload mktx2 sig) := by
  constructor
  · simp only [accept_channel_stage, Except.isOk]
    split_ifs with h1 h2 h3 <;> simp_all [Except.toBool]
  · intro node_id local_config seed funding_sat push_msat mktx1 mktx2 sig hbad
    obtain ⟨e, he⟩ : ∃ e, accept_channel_stage payload = .error e := by
      cases hstage : accept_channel_stage payload with
      | error e => exact ⟨e, rfl⟩
      | ok rc => rw [hstage] at hbad; simp [Except.isOk, Except.toBool] at hbad
    have hflow : ∀ mktx : Unit → List Nat × Nat,
        channel_establishment_flow node_id local_config seed funding_sat push_msat payload mktx sig = .error e := by
      intro mktx
      unfold channel_establishment_flow
      rw [he]
      rfl
    rw [hflow mktx1, hflow mktx2]

/-- Witness for C7 at a payload with `dust_limit_satoshis = 600`: the
checks fail and the flow result does not depend on the funding
transaction. -/
theorem c7_accept_channel_checks_witness :
    channel_establishment_flow [9] cfg0 [8] 1000 0 badAcceptPayload mk0 [7] =
      channel_establishment_flow [9] cfg0 [8] 1000 0 badAcceptPayload mk1 [7] :=
  (c7_accept_channel_checks badAcceptPayload).2 [9] cfg0 [8] 1000 0 mk0 mk1 [7] (by decide)

/-- C4: the reestablish flow sends `channel_reestablish` with
`next_local_commitment_number = local.ctn + 1` and
`next_remote_revocation_number = remote.ctn`; the inbound handler for
a known channel resolves the reestablishment future exactly when their
`next_local_commitment_number` equals `remote.ctn + 1`, their
`next_remote_revocation_number` equals `local.ctn`, and their
`my_current_per_commitment_point` equals the locally stored remote
point (`current_per_commitment_point` when set, otherwise
`next_per_commitment_point`), and raises exactly otherwise. -/
theorem c4_reestablish (chan : ChannelRecord) (payload : ReestablishPayload) :
    (reestablish_channel_msg chan).next_local_commitment_number = chan.local_state.ctn + 1 ∧
    (reestablish_channel_msg chan).next_remote_revocation_number = chan.remote_state.ctn ∧
    (on_channel_reestablish (some chan) payload = .ok .resolved ↔
      ((fromBytesBE payload.next_local_commitment_number : Int) = chan.remote_state.ctn + 1 ∧
       (fromBytesBE payload.next_remote_revocation_number : Int) = chan.local_state.ctn ∧
       chan.remote_state.current_per_commitment_point.getD chan.remote_state.next_per_commitment_point =
         payload.my_current_per_commitment_point)) ∧
    ((on_channel_reestablish (some chan) payload).isOk = false ↔
      ¬ ((fromBytesBE payload.next_local_commitment_number : Int) = chan.remote_state.ctn + 1 ∧
         (fromBytesBE payload.next_remote_revocation_number : Int) = chan.local_state.ctn ∧
         chan.remote_state.current_per_commitment_point.getD chan.remote_state.next_per_commitment_point =
           payload.my_current_per_commitment_point)) := by
  refine ⟨rfl, rfl, ?_, ?_⟩
  all_goals
    by_cases h1 : (fromBytesBE payload.next_local_commitment_number : Int) = chan.remote_state.ctn + 1 <;>
    by_cases h2 : (fromBytesBE payload.next_remote_revocation_number : Int) = chan.local_state.ctn <;>
    by_cases h3 : chan.remote_state.current_per_commitment_point.getD chan.remote_state.next_per_commitment_point =
      payload.my_current_per_commitment_point <;>
    simp [on_channel_reestablish, h1, h2, h3, Except.isOk, Except.toBool]

/-- Witness for C4 at a concrete channel and matching payload: the
handler resolves the reestablishment future. -/
theorem c4_reestablish_witness :
    on_channel_reestablish (some chan0) reestPayload0 = .ok .resolved :=
  (c4_reestablish chan0 reestPayload0).2.2.1.mpr (by decide)

/-- A message layout with the `feature`-marked fields removed. -/
def filter_non_feature (spec : MsgSpec) : MsgSpec :=
  { spec with payload := spec.payload.filter (fun f => !f.feature) }

/-- Lemma: `handlesingle` mapped over an atom list only consults the variables
occurring in the list. -/
theorem mapM_handlesingle_congr (look1 look2 : String → Option Val) (ts : List Atom)
    (h : ∀ s, Atom.var s ∈ ts → look1 s = look2 s) :
    ts.mapM (handlesingle look1) = ts.mapM (handlesingle look2) := by
  induction ts with
  | nil => rfl
  | cons a ts ih =>
    rw [List.mapM_cons, List.mapM_cons]
    have ha : handlesingle look1 a = handlesingle look2 a := by
      cases a with
      | lit n => rfl
      | var s => simp [handlesingle, h s (by simp)]
    rw [ha, ih (fun s hs => h s (by simp [hs]))]

/-- Lemma: `calcexp` only consults the variables of its expression. -/
theorem calcexp_congr (e : Expr) (look1 look2 : String → Option Val)
    (h : ∀ s ∈ exprVars e, look1 s = look2 s) :
    calcexp e look1 = calcexp e look2 := by
  cases e with
  | esum ts =>
    unfold calcexp
    dsimp only
    rw [mapM_handlesingle_congr look1 look2 ts]
    intro s hs
    exact h s (by simp only [exprVars, List.mem_filterMap]; exact ⟨.var s, hs, rfl⟩)
  | eprod ts =>
    unfold calcexp
    dsimp only
    rw [mapM_handlesingle_congr look1 look2 ts]
    intro s hs
    exact h s (by simp only [exprVars, List.mem_filterMap]; exact ⟨.var s, hs, rfl⟩)

/-- A binding for a name that is neither the field's name nor free in
its length expression does not change the field's encoding. -/
theorem encStep_extend (kwargs : List (String × Val)) (lengths : List (String × Int))
    (f : FieldSpec) (n : String) (v : Val)
    (hname : f.name ≠ n) (hvars : n ∉ exprVars f.length) :
    encStep (aset kwargs n v) lengths f = encStep kwargs lengths f := by
  unfold encStep
  have hl : calcexp f.length (fun s => (aget (aset kwargs n v) s).orElse (fun _ => (aget lengths s).map Val.vint)) =
      calcexp f.length (fun s => (aget kwargs s).orElse (fun _ => (aget lengths s).map Val.vint)) := by
    apply calcexp_congr
    intro s hs
    have hne : n ≠ s := fun hh => hvars (hh ▸ hs)
    simp [aset, aget, hne]
  have hp : aget (aset kwargs n v) f.name = aget kwargs f.name := by
    have hne : n ≠ f.name := fun hh => hname hh.symm
    simp [aset, aget, hne]
  rw [hl, hp]

/-- A binding for a name foreign to every non-`feature` field does not
change the field-by-field encoding. -/
theorem encodeCore_extend (n : String) (v : Val) :
    ∀ (payload : List FieldSpec) (kwargs : List (String × Val)) (lengths : List (String × Int)),
      (∀ g ∈ payload, g.feature = false → g.name ≠ n ∧ n ∉ exprVars g.length) →
      encodeCore (aset kwargs n v) payload lengths = encodeCore kwargs payload lengths := by
  intro payload
  induction payload with
  | nil => intro kwargs lengths _; rfl
  | cons f rest ih =>
    intro kwargs lengths h
    unfold encodeCore
    by_cases hf : f.feature
    · rw [if_pos hf, if_pos hf]
      exact ih kwargs lengths (fun g hg => h g (by simp [hg]))
    · rw [if_neg hf, if_neg hf]
      obtain ⟨hname, hvars⟩ := h f (by simp) (by simpa using hf)
      rw [encStep_extend kwargs lengths f n v hname hvars]
      cases encStep kwargs lengths f with
      | error e => rfl
      | ok pbytes =>
        dsimp only
        rw [ih kwargs (aset lengths f.name (pbytes.length : Int)) (fun g hg => h g (by simp [hg]))]

/-- Removing the `feature` fields from a payload does not change the
field-by-field encoding: the encoder skips them unconditionally. -/
theorem encodeCore_filter (kwargs : List (String × Val)) :
    ∀ (payload : List FieldSpec) (lengths : List (String × Int)),
      encodeCore kwargs (payload.filter (fun f => !f.feature)) lengths =
        encodeCore kwargs payload lengths := by
  intro payload
  induction payload with
  | nil => intro lengths; rfl
  | cons f rest ih =>
    intro lengths
    by_cases hf : f.feature
    · rw [List.filter_cons_of_neg (by simp [hf])]
      rw [ih lengths]
      conv_rhs => rw [encodeCore]
      rw [if_pos hf]
    · rw [List.filter_cons_of_pos (by simp [hf])]
      conv_lhs => rw [encodeCore]
      conv_rhs => rw [encodeCore]
      rw [if_neg hf, if_neg hf]
      cases encStep kwargs lengths f with
      | error e => rfl
      | ok pbytes =>
        dsimp only
        rw [ih (aset lengths f.name (pbytes.length : Int))]

/-- C10: for every message layout and caller-supplied values, `gen_msg`
unconditionally skips every `feature`-marked field — the emitted bytes
equal those of the layout with the feature fields removed — and a
value supplied for a name that is not a non-feature field name and is
not referenced by any non-feature field's length expression (in
particular, a value for a feature field) is silently ignored, neither
encoded nor rejected. -/
theorem c10_gen_msg_skips_feature_fields :
    (∀ (spec : MsgSpec) (kwargs : List (String × Val)),
      gen_msg spec kwargs = gen_msg (filter_non_feature spec) kwargs) ∧
    (∀ (spec : MsgSpec) (kwargs : List (String × Val)) (n : String) (v : Val),
      (∀ g ∈ spec.payload, g.feature = false → g.name ≠ n ∧ n ∉ exprVars g.length) →
      gen_msg spec (aset kwargs n v) = gen_msg spec kwargs) := by
  constructor
  · intro spec kwargs
    unfold gen_msg filter_non_feature
    by_cases ht : spec.type < 65536
    · rw [if_pos ht, if_pos ht, encodeCore_filter]
    · rw [if_neg ht, if_neg ht]
  · intro spec kwargs n v h
    unfold gen_msg
    by_cases ht : spec.type < 65536
    · rw [if_pos ht, if_pos ht, encodeCore_extend n v spec.payload kwargs [] h]
    · rw [if_neg ht, if_neg ht]

/-- Witness for C10 at the `channel_reestablish` layout: supplying a
value for the feature field `my_current_per_commitment_point` leaves
the encoding unchanged, and the encoding equals that of the layout
with both feature trailers removed. -/
theorem c10_gen_msg_skips_feature_fields_witness :
    gen_msg channelReestablishSpec
        (aset [("channel_id", Val.vbytes (List.replicate 32 0))] "my_current_per_commitment_point" (Val.vbytes [1])) =
      gen_msg channelReestablishSpec [("channel_id", Val.vbytes (List.replicate 32 0))] ∧
    gen_msg channelReestablishSpec [("channel_id", Val.vbytes (List.replicate 32 0))] =
      gen_msg (filter_non_feature channelReestablishSpec) [("channel_id", Val.vbytes (List.replicate 32 0))] :=
  ⟨c10_gen_msg_skips_feature_fields.2 channelReestablishSpec
      [("channel_id", Val.vbytes (List.replicate 32 0))] "my_current_per_commitment_point" (Val.vbytes [1])
      (by decide),
   c10_gen_msg_skips_feature_fields.1 channelReestablishSpec
      [("channel_id", Val.vbytes (List.replicate 32 0))]⟩

/-- Fold the encoded `(name, bytes)` entries into a decoder field map,
mirroring the decoder's successive `ma[fieldname] = ...` updates. -/
def maOfEntriesInto (ma : List (String × Val)) (es : List (String × List Nat)) : List (String × Val) :=
  es.foldl (fun m e => (e.1, Val.vbytes e.2) :: m) ma

/-- Walk the non-`feature` fields in lockstep with their encoded
entries, checking that each field's `position` expression re-evaluates
(over the decoded prefix map) to the field's byte offset and its
`length` expression to the entry's byte length. -/
def checkWalk : List FieldSpec → List (String × List Nat) → List (String × Val) → Int → Bool
  | [], [], _, _ => true
  | f :: fs, (n, bs) :: es, ma, pos =>
    decide (n = f.name) && (!f.feature) &&
    decide (calcexp f.position (aget ma) = Except.ok pos) &&
    decide (calcexp f.length (aget ma) = Except.ok (bs.length : Int)) &&
    checkWalk fs es ((f.name, Val.vbytes bs) :: ma) (pos + (bs.length : Int))
  | _, _, _, _ => false

/-- The executable compatibility check under which encode-then-decode
round-trips: the type code fits in two bytes, the `feature` fields are
trailers, the non-`feature` field names are distinct, the encoder
succeeds, and the position/length expressions re-evaluate consistently
over the decoded values. -/
def roundTripCheck (spec : MsgSpec) (kwargs : List (String × Val)) : Bool :=
  decide (spec.type < 65536) &&
  (spec.payload.dropWhile (fun f => !f.feature)).all (·.feature) &&
  decide (((spec.payload.filter (fun f => !f.feature)).map (·.name)).Nodup) &&
  (match encodeCore kwargs spec.payload [] with
   | .error _ => false
   | .ok entries => checkWalk (spec.payload.takeWhile (fun f => !f.feature)) entries [] 0)

/-- Appending one byte to a big-endian string multiplies by 256. -/
theorem fromBytesBE_append_singleton (xs : List Nat) (b : Nat) :
    fromBytesBE (xs ++ [b]) = 256 * fromBytesBE xs + b := by
  unfold fromBytesBE
  rw [List.foldl_append]
  rfl

/-- Lemma: `toBytesBE` produces exactly the requested number of bytes. -/
theorem toBytesBE_length (len : Nat) : ∀ n, (toBytesBE len n).length = len := by
  induction len with
  | zero => intro n; rfl
  | succ len ih => intro n; simp [toBytesBE, ih]

/-- Big-endian decode inverts big-endian encode for values in range. -/
theorem fromBytesBE_toBytesBE (len : Nat) : ∀ n, n < 256 ^ len →
    fromBytesBE (toBytesBE len n) = n := by
  induction len with
  | zero =>
    intro n h
    have : n = 0 := by simpa using h
    simp [this, toBytesBE, fromBytesBE]
  | succ len ih =>
    intro n h
    rw [toBytesBE, fromBytesBE_append_singleton, ih (n / 256) (by
      have h2 : 256 ^ (len + 1) = 256 ^ len * 256 := by ring
      omega)]
    omega

/-- A successful `encStep` encodes a caller-supplied byte value
verbatim and a caller-supplied integer by its big-endian bytes. -/
theorem encParamBytes_matches (param : Val) (leng : Int) (bs : List Nat)
    (h : encParamBytes param leng = .ok bs) :
    (∀ bs0, param = .vbytes bs0 → bs = bs0) ∧
    (∀ i, param = .vint i → (fromBytesBE bs : Int) = i) := by
  cases param with
  | vbytes bs0 =>
    have h1 : bs0 = bs := by simpa [encParamBytes] using h
    constructor
    · intro bs1 hb
      injection hb with hb1
      rw [← h1, hb1]
    · intro i hi
      exact absurd hi (by simp)
  | vint i =>
    unfold encParamBytes at h
    dsimp only at h
    by_cases hguard : 0 ≤ leng ∧ 0 ≤ i ∧ i < (256 : Int) ^ leng.toNat
    · rw [if_pos hguard] at h
      have h1 : toBytesBE leng.toNat i.toNat = bs := by simpa using h
      obtain ⟨hl, hi0, hilt⟩ := hguard
      constructor
      · intro bs1 hb
        exact absurd hb (by simp)
      · intro j hj
        injection hj with hj1
        subst hj1
        rw [← h1, fromBytesBE_toBytesBE _ i.toNat ((Int.toNat_lt hi0).mpr (by exact_mod_cast hilt))]
        omega
    · rw [if_neg hguard] at h
      exact absurd h (by simp)

/-- The length check at the end of `encStep` passes the converted
parameter bytes through unchanged. -/
theorem encStepTail_matches (param : Val) (leng : Int) (bs : List Nat)
    (h : (match encParamBytes param leng with
          | Except.error e => Except.error e
          | Except.ok pbytes =>
            if (pbytes.length : Int) = leng then Except.ok pbytes else Except.error ()) = Except.ok bs) :
    (∀ bs0, param = .vbytes bs0 → bs = bs0) ∧
    (∀ i, param = .vint i → (fromBytesBE bs : Int) = i) := by
  cases hpe : encParamBytes param leng with
  | error e => rw [hpe] at h; simp at h
  | ok pb =>
    rw [hpe] at h
    dsimp only at h
    split at h
    · injection h with h1
      subst h1
      exact encParamBytes_matches param leng pb hpe
    · cases h

/-- A successful `encStep` encodes the caller's value for the field:
a byte string verbatim, an integer by its big-endian bytes. -/
theorem encStep_matches (kwargs : List (String × Val)) (lengths : List (String × Int)) (f : FieldSpec)
    (bs : List Nat) (h : encStep kwargs lengths f = .ok bs) :
    (∀ bs0, aget kwargs f.name = some (.vbytes bs0) → bs = bs0) ∧
    (∀ i, aget kwargs f.name = some (.vint i) → (fromBytesBE bs : Int) = i) := by
  unfold encStep at h
  cases hc : calcexp f.length (fun s => (aget lengths s).map Val.vint) with
  | error e => rw [hc] at h; simp at h
  | ok leng0 =>
    rw [hc] at h
    dsimp only at h
    have htail := encStepTail_matches ((aget kwargs f.name).getD (Val.vint 0)) _ bs h
    constructor
    · intro bs0 hb
      exact htail.1 bs0 (by rw [hb]; rfl)
    · intro i hi
      exact htail.2 i (by rw [hi]; rfl)

/-- The entries produced by `encodeCore` are named after the
non-`feature` fields, in order. -/
theorem encodeCore_names (kwargs : List (String × Val)) :
    ∀ (payload : List FieldSpec) (lengths : List (String × Int)) (entries : List (String × List Nat)),
      encodeCore kwargs payload lengths = .ok entries →
      entries.map (·.1) = (payload.filter (fun f => !f.feature)).map (·.name) := by
  intro payload
  induction payload with
  | nil =>
    intro lengths entries h
    injection h with h1
    subst h1
    rfl
  | cons f rest ih =>
    intro lengths entries h
    unfold encodeCore at h
    by_cases hf : f.feature
    · rw [if_pos hf] at h
      rw [List.filter_cons_of_neg (by simp [hf])]
      exact ih lengths entries h
    · rw [if_neg hf] at h
      rw [List.filter_cons_of_pos (by simp [hf])]
      cases hstep : encStep kwargs lengths f with
      | error e => rw [hstep] at h; simp at h
      | ok pbytes =>
        rw [hstep] at h
        dsimp only at h
        cases hrec : encodeCore kwargs rest (aset lengths f.name (pbytes.length : Int)) with
        | error e => rw [hrec] at h; simp at h
        | ok es =>
          rw [hrec] at h
          injection h with h1
          subst h1
          simp only [List.map_cons]
          rw [ih _ es hrec]

/-- Every entry produced by `encodeCore` records the caller's value
for its field: byte strings verbatim, integers via their big-endian
encodings. -/
theorem encodeCore_matches (kwargs : List (String × Val)) :
    ∀ (payload : List FieldSpec) (lengths : List (String × Int)) (entries : List (String × List Nat)),
      encodeCore kwargs payload lengths = .ok entries →
      ∀ n bs, (n, bs) ∈ entries →
        (∀ bs0, aget kwargs n = some (.vbytes bs0) → bs = bs0) ∧
        (∀ i, aget kwargs n = some (.vint i) → (fromBytesBE bs : Int) = i) := by
  intro payload
  induction payload with
  | nil =>
    intro lengths entries h n bs hmem
    injection h with h1
    subst h1
    cases hmem
  | cons f rest ih =>
    intro lengths entries h n bs hmem
    unfold encodeCore at h
    by_cases hf : f.feature
    · rw [if_pos hf] at h
      exact ih lengths entries h n bs hmem
    · rw [if_neg hf] at h
      cases hstep : encStep kwargs lengths f with
      | error e => rw [hstep] at h; simp at h
      | ok pbytes =>
        rw [hstep] at h
        dsimp only at h
        cases hrec : encodeCore kwargs rest (aset lengths f.name (pbytes.length : Int)) with
        | error e => rw [hrec] at h; simp at h
        | ok es =>
          rw [hrec] at h
          injection h with h1
          subst h1
          rcases List.mem_cons.mp hmem with hhead | htail
          · injection hhead with h2 h3
            subst h2
            subst h3
            exact encStep_matches kwargs lengths f bs hstep
          · exact ih _ es hrec n bs htail

/-- When the `feature` fields are trailers, filtering them out is
taking the non-`feature` prefix. -/
theorem filter_eq_takeWhile_of_trailers :
    ∀ (payload : List FieldSpec),
      (payload.dropWhile (fun f => !f.feature)).all (·.feature) = true →
      payload.filter (fun f => !f.feature) = payload.takeWhile (fun f => !f.feature) := by
  intro payload
  induction payload with
  | nil => intro _; rfl
  | cons f rest ih =>
    intro h
    by_cases hf : f.feature
    · rw [List.dropWhile_cons_of_neg (by simp [hf])] at h
      rw [List.filter_cons_of_neg (by simp [hf]), List.takeWhile_cons_of_neg (by simp [hf])]
      have hall : ∀ g ∈ f :: rest, g.feature = true := by
        intro g hg
        exact (List.all_eq_true.mp h) g hg
      have : rest.filter (fun f => !f.feature) = [] := by
        rw [List.filter_eq_nil_iff]
        intro g hg
        simp [hall g (by simp [hg])]
      exact this
    · rw [List.dropWhile_cons_of_pos (by simp [hf])] at h
      rw [List.filter_cons_of_pos (by simp [hf]), List.takeWhile_cons_of_pos (by simp [hf])]
      rw [ih h]

/-- Slicing the middle block out of a concatenation. -/
theorem pythonSlice_middle (pre bs tail : List Nat) :
    pythonSlice (pre ++ bs ++ tail) (pre.length : Int) ((pre.length : Int) + (bs.length : Int)) = bs := by
  unfold pythonSlice
  dsimp only
  have hlen : ((pre ++ bs ++ tail).length : Int) = (pre.length : Int) + bs.length + tail.length := by
    simp only [List.length_append]
    push_cast
    ring
  have hnb : ¬ ((pre.length : Int) + (bs.length : Int) < 0) := by omega
  have hna : ¬ ((pre.length : Int) < 0) := by omega
  rw [if_neg hnb, if_neg hna, hlen]
  have hminb : min ((pre.length : Int) + bs.length) ((pre.length : Int) + bs.length + tail.length) =
      (pre.length : Int) + bs.length := by omega
  have hmina : min ((pre.length : Int)) ((pre.length : Int) + bs.length + tail.length) =
      (pre.length : Int) := by omega
  rw [hminb, hmina]
  have htb : ((pre.length : Int) + bs.length).toNat = pre.length + bs.length := by omega
  have hta : ((pre.length : Int)).toNat = pre.length := by omega
  rw [htb, hta]
  rw [List.take_left' (by simp)]
  exact List.drop_left pre bs

/-- The decoder walk skips a block of `feature` trailers once the
input is exhausted and accepts. -/
theorem runFields_all_feature (data : List Nat) (ma : List (String × Val)) :
    ∀ (feats : List FieldSpec), (∀ f ∈ feats, f.feature = true) →
      runFields data feats ma (data.length : Int) = .ok ma := by
  intro feats
  induction feats with
  | nil => intro _; simp [runFields]
  | cons f rest ih =>
    intro h
    unfold runFields
    rw [if_pos ⟨by simp [h f (by simp)], rfl⟩]
    exact ih (fun g hg => h g (by simp [hg]))

set_option maxHeartbeats 1600000 in
/-- The main decoder-walk lemma: when `checkWalk` accepts the encoded
entries against the non-`feature` fields, the decoder consumes exactly
the concatenated entry bytes, accumulating the entry values, and then
skips the `feature` trailers. -/
theorem runFields_walk (feats : List FieldSpec) (hfeats : ∀ f ∈ feats, f.feature = true) :
    ∀ (fs : List FieldSpec) (es : List (String × List Nat)) (ma : List (String × Val)) (pre : List Nat),
      checkWalk fs es ma (pre.length : Int) = true →
      runFields (pre ++ (es.map (·.2)).flatten) (fs ++ feats) ma (pre.length : Int) =
        .ok (maOfEntriesInto ma es) := by
  intro fs
  induction fs with
  | nil =>
    intro es ma pre hchk
    cases es with
    | cons e es' => simp [checkWalk] at hchk
    | nil =>
      simp only [List.map_nil, List.flatten_nil, List.append_nil, List.nil_append]
      exact runFields_all_feature pre ma feats hfeats
  | cons f fs' ih =>
    intro es ma pre hchk
    cases es with
    | nil => simp [checkWalk] at hchk
    | cons e es' =>
      obtain ⟨n, bs⟩ := e
      simp only [checkWalk, Bool.and_eq_true, decide_eq_true_eq, Bool.not_eq_eq_eq_not,
        Bool.not_true] at hchk
      obtain ⟨⟨⟨⟨hn, hfeat⟩, hpos⟩, hlen⟩, hrec⟩ := hchk
      subst hn
      have hdata : pre ++ (((f.name, bs) :: es').map (·.2)).flatten =
          (pre ++ bs) ++ (es'.map (·.2)).flatten := by
        simp
      rw [hdata]
      show runFields ((pre ++ bs) ++ (es'.map (·.2)).flatten) ((f :: fs') ++ feats) ma (pre.length : Int) = _
      rw [List.cons_append]
      unfold runFields
      rw [if_neg (by simp [hfeat])]
      rw [hpos]
      dsimp only
      rw [if_pos rfl]
      rw [hlen]
      dsimp only
      have hslice : pythonSlice ((pre ++ bs) ++ (es'.map (·.2)).flatten)
          ((pre.length : Int)) ((pre.length : Int) + (bs.length : Int)) = bs := by
        exact pythonSlice_middle pre bs ((es'.map (·.2)).flatten)
      rw [hslice]
      have hlen2 : (pre.length : Int) + (bs.length : Int) = (((pre ++ bs).length : Nat) : Int) := by
        simp
      rw [hlen2]
      have hrec2 : checkWalk fs' es' ((f.name, Val.vbytes bs) :: ma) (((pre ++ bs).length : Nat) : Int) = true := by
        rw [← hlen2]
        exact hrec
      have := ih es' ((f.name, Val.vbytes bs) :: ma) (pre ++ bs) hrec2
      rw [aset]
      exact this

/-- The decoder field map is the reversed entry list (most recent
binding first) on top of the initial map. -/
theorem maOfEntriesInto_eq (es : List (String × List Nat)) :
    ∀ ma, maOfEntriesInto ma es = (es.map (fun e => (e.1, Val.vbytes e.2))).reverse ++ ma := by
  induction es with
  | nil => intro ma; rfl
  | cons e es ih =>
    intro ma
    show maOfEntriesInto ((e.1, Val.vbytes e.2) :: ma) es = _
    rw [ih ((e.1, Val.vbytes e.2) :: ma)]
    simp

/-- Lookup distributes over appended association lists. -/
theorem aget_append (xs ys : List (String × Val)) (k : String) :
    aget (xs ++ ys) k = match aget xs k with
      | some v => some v
      | none => aget ys k := by
  induction xs with
  | nil => rfl
  | cons p xs ih =>
    obtain ⟨k', v⟩ := p
    by_cases hk : k' = k
    · simp [aget, hk]
    · simp only [List.cons_append, aget, if_neg hk]
      exact ih

/-- Lookup misses a list none of whose keys is the requested one. -/
theorem aget_eq_none (k : String) :
    ∀ (xs : List (String × Val)), (∀ p ∈ xs, p.1 ≠ k) → aget xs k = none := by
  intro xs
  induction xs with
  | nil => intro _; rfl
  | cons p xs ih =>
    intro h
    obtain ⟨k', v⟩ := p
    have hk : k' ≠ k := h (k', v) (by simp)
    simp only [aget, if_neg hk]
    exact ih (fun q hq => h q (by simp [hq]))

/-- With distinct entry names, the decoder map looks up each entry's
bytes. -/
theorem aget_entries :
    ∀ (es : List (String × List Nat)) (n : String) (bs : List Nat),
      (es.map (·.1)).Nodup → (n, bs) ∈ es →
      aget ((es.map (fun e => (e.1, Val.vbytes e.2))).reverse) n = some (.vbytes bs) := by
  intro es
  induction es with
  | nil => intro n bs _ hmem; cases hmem
  | cons e es ih =>
    intro n bs hnd hmem
    obtain ⟨n0, bs0⟩ := e
    simp only [List.map_cons, List.reverse_cons]
    rw [aget_append]
    simp only [List.map_cons] at hnd
    have hcons := List.nodup_cons.mp hnd
    rcases List.mem_cons.mp hmem with hhead | htail
    · injection hhead with h1 h2
      rw [h1, h2]
      have hmiss : aget ((es.map (fun e => (e.1, Val.vbytes e.2))).reverse) n0 = none := by
        apply aget_eq_none
        intro p hp hpk
        simp only [List.mem_reverse, List.mem_map] at hp
        obtain ⟨x, hx, hpx⟩ := hp
        apply hcons.1
        have hx1 : p.1 = x.1 := by rw [← hpx]
        rw [List.mem_map]
        exact ⟨x, hx, by rw [← hx1, hpk]⟩
      rw [hmiss]
      simp [aget]
    · rw [ih n bs hcons.2 htail]

/-- Unfolding `toBytesBE 2`. -/
theorem toBytesBE_two (t : Nat) : toBytesBE 2 t = [t / 256 % 256, t % 256] := rfl

/-- C1 (amended): for every schema message whose type code the
dispatcher resolves and whose field assignment passes the executable
compatibility check (encode succeeds, `feature` fields are trailers,
non-`feature` names are distinct, and position/length expressions
re-evaluate consistently over the decoded values), encoding with
`gen_msg` and decoding with `decode_msg` recovers the message name and
a field map holding, for every non-`feature` field, exactly the bytes
the encoder emitted for it: a caller-supplied byte string verbatim,
and a caller-supplied integer as its big-endian encoding.  Values
supplied for `feature` fields are not recovered (the encoder skips
them). -/
theorem c1_roundtrip (schema : List MsgSpec) (spec : MsgSpec) (kwargs : List (String × Val))
    (hfind : schema.find? (fun sp => toBytesBE 2 sp.type = toBytesBE 2 spec.type) = some spec)
    (hchk : roundTripCheck spec kwargs = true) :
    ∃ out entries,
      gen_msg spec kwargs = .ok out ∧
      encodeCore kwargs spec.payload [] = .ok entries ∧
      entries.map (·.1) = (spec.payload.filter (fun f => !f.feature)).map (·.name) ∧
      decode_msg schema out = .ok (spec.name, maOfEntriesInto [] entries) ∧
      (∀ n bs, (n, bs) ∈ entries →
        aget (maOfEntriesInto [] entries) n = some (.vbytes bs) ∧
        (∀ bs0, aget kwargs n = some (.vbytes bs0) → bs = bs0) ∧
        (∀ i, aget kwargs n = some (.vint i) → (fromBytesBE bs : Int) = i)) := by
  unfold roundTripCheck at hchk
  simp only [Bool.and_eq_true, decide_eq_true_eq] at hchk
  obtain ⟨⟨⟨htype, htrail⟩, hnodup⟩, hmatch⟩ := hchk
  cases henc : encodeCore kwargs spec.payload [] with
  | error e => rw [henc] at hmatch; cases hmatch
  | ok entries =>
    rw [henc] at hmatch
    dsimp only at hmatch
    have hnames := encodeCore_names kwargs spec.payload [] entries henc
    refine ⟨toBytesBE 2 spec.type ++ (entries.map (·.2)).flatten, entries, ?_, rfl, hnames, ?_, ?_⟩
    · unfold gen_msg
      rw [if_pos htype, henc]
      rfl
    · rw [toBytesBE_two]
      show decode_msg schema ((spec.type / 256 % 256) :: (spec.type % 256) :: (entries.map (·.2)).flatten) = _
      unfold decode_msg
      dsimp only
      rw [toBytesBE_two] at hfind
      rw [hfind]
      dsimp only
      unfold make_handler
      have hfeats : ∀ f ∈ spec.payload.dropWhile (fun f => !f.feature), f.feature = true := by
        intro f hf
        simpa using List.all_eq_true.mp htrail f hf
      have hwalk := runFields_walk (spec.payload.dropWhile (fun f => !f.feature)) hfeats
        (spec.payload.takeWhile (fun f => !f.feature)) entries [] [] hmatch
      rw [List.takeWhile_append_dropWhile] at hwalk
      simp only [List.nil_append, List.length_nil, Nat.cast_zero] at hwalk
      rw [hwalk]
      rfl
    · intro n bs hmem
      refine ⟨?_, (encodeCore_matches kwargs spec.payload [] entries henc n bs hmem).1,
        (encodeCore_matches kwargs spec.payload [] entries henc n bs hmem).2⟩
      rw [maOfEntriesInto_eq entries []]
      rw [List.append_nil]
      apply aget_entries entries n bs ?_ hmem
      rw [hnames]
      exact hnodup

/-- Witness for C1 (amended) at the `init` message with
`gflen=0, lflen=1, localfeatures=8`. -/
theorem c1_roundtrip_witness :
    ∃ out entries,
      gen_msg initSpec initKwargs = .ok out ∧
      encodeCore initKwargs initSpec.payload [] = .ok entries ∧
      entries.map (·.1) = (initSpec.payload.filter (fun f => !f.feature)).map (·.name) ∧
      decode_msg SCHEMA out = .ok (initSpec.name, maOfEntriesInto [] entries) ∧
      (∀ n bs, (n, bs) ∈ entries →
        aget (maOfEntriesInto [] entries) n = some (.vbytes bs) ∧
        (∀ bs0, aget initKwargs n = some (.vbytes bs0) → bs = bs0) ∧
        (∀ i, aget initKwargs n = some (.vint i) → (fromBytesBE bs : Int) = i)) :=
  c1_roundtrip SCHEMA initSpec initKwargs (by decide) (by decide)

/-- C1 (counterexample): encoding `channel_reestablish` with a value
supplied for the `feature` trailer `my_current_per_commitment_point`
and decoding the result loses that value — the decoded field map does
not contain the field at all, so it is not equal to the original field
values. -/
theorem c1_counterexample :
    gen_msg channelReestablishSpec crKwargs = .ok ([0, 136] ++ List.replicate 48 0) ∧
    aget crKwargs "my_current_per_commitment_point" = some (.vbytes (List.replicate 33 2)) ∧
    (decode_msg SCHEMA ([0, 136] ++ List.replicate 48 0)).map
        (fun r => (r.1, aget r.2 "my_current_per_commitment_point")) =
      .ok ("channel_reestablish", none) := by
  decide

end LNBase
